import Mathlib

/-!
Verification of the Shopify-to-Postgres ingestion pipeline
(`shopify_dlt_pipeline.py`) against its natural-language specification.

The development shallowly embeds the redaction engine
(`anonymize_customer`, `_hash_value`, `PII_COLUMN_ACTIONS`), the
redaction ledger (the `redacted_customers` table with its
`INSERT OR IGNORE` marking), the re-application pass
(`reapply_redactions`) and the window-planning loop of
`incremental_load_with_backloading`.

Modelling conventions:
- SQL values are `Option String` (`none` is SQL NULL); customer ids and
  timestamps are modelled as strings (their rendered form).
- A row is an association list from column name to value, a table is its
  column list plus its rows, and a database is an association list from
  table name to table (one schema).  SQL guarantees unique table names,
  so lookups and updates act on the first entry of a name.
- `PRAGMA table_info` on an absent table is modelled as yielding no
  columns / skipping the table; the external DuckDB connection, the dlt
  `pipeline.run` ingestion and the Shopify fetch are external
  capabilities and appear as function parameters.
- `hashlib.sha256` is embedded as an executable SHA-256 over `Nat`
  bytes; `str.encode()` is an executable UTF-8 encoder.
- The `try/except` around the per-table `UPDATE` is modelled by a
  failure oracle `fail : String → Bool` saying whether the `UPDATE` on a
  given table raises; a raising `UPDATE` leaves its table unchanged and
  the loop continues (`anonymizeF`).  `anonymize_customer` is the run
  with no failures.
- Pendulum timestamps in the backloading loop are modelled as `Nat`
  (epoch seconds); the loop is embedded with a fuel argument
  (`ceiling - floor` bounds the iteration count whenever the window
  width is positive, which is the case in the source: one week).
-/

/-! ## SHA-256 (`hashlib.sha256`) -/

def add32 (a b : Nat) : Nat := (a + b) % 4294967296

def rotr32 (x n : Nat) : Nat := ((x >>> n) ||| (x <<< (32 - n))) % 4294967296

def smallSigma0 (x : Nat) : Nat := rotr32 x 7 ^^^ rotr32 x 18 ^^^ (x >>> 3)

def smallSigma1 (x : Nat) : Nat := rotr32 x 17 ^^^ rotr32 x 19 ^^^ (x >>> 10)

def bigSigma0 (x : Nat) : Nat := rotr32 x 2 ^^^ rotr32 x 13 ^^^ rotr32 x 22

def bigSigma1 (x : Nat) : Nat := rotr32 x 6 ^^^ rotr32 x 11 ^^^ rotr32 x 25

/-- The sixty-four SHA-256 round constants, written in decimal. -/
def sha256K : List Nat :=
  [1116352408, 1899447441, 3049323471, 3921009573, 961987163,
   1508970993, 2453635748, 2870763221, 3624381080, 310598401,
   607225278, 1426881987, 1925078388, 2162078206, 2614888103,
   3248222580, 3835390401, 4022224774, 264347078, 604807628,
   770255983, 1249150122, 1555081692, 1996064986, 2554220882,
   2821834349, 2952996808, 3210313671, 3336571891, 3584528711,
   113926993, 338241895, 666307205, 773529912, 1294757372,
   1396182291, 1695183700, 1986661051, 2177026350, 2456956037,
   2730485921, 2820302411, 3259730800, 3345764771, 3516065817,
   3600352804, 4094571909, 275423344, 430227734, 506948616,
   659060556, 883997877, 958139571, 1322822218, 1537002063,
   1747873779, 1955562222, 2024104815, 2227730452, 2361852424,
   2428436474, 2756734187, 3204031479, 3329325298]

/-- The eight initial SHA-256 state words, written in decimal. -/
def sha256InitH : List Nat :=
  [1779033703, 3144134277, 1013904242, 2773480762, 1359893119,
   2600822924, 528734635, 1541459225]

def bytesToWords : List Nat → List Nat
  | b0 :: b1 :: b2 :: b3 :: rest =>
    ((((b0 <<< 8) ||| b1) <<< 8 ||| b2) <<< 8 ||| b3) :: bytesToWords rest
  | _ => []

def schedStep (w : List Nat) : List Nat :=
  w ++ [add32 (add32 (smallSigma1 (w.getD (w.length - 2) 0)) (w.getD (w.length - 7) 0))
             (add32 (smallSigma0 (w.getD (w.length - 15) 0)) (w.getD (w.length - 16) 0))]

def buildSched : Nat → List Nat → List Nat
  | 0, w => w
  | n + 1, w => buildSched n (schedStep w)

def compressRound (st : List Nat) (k : Nat) (w : Nat) : List Nat :=
  match st with
  | [a, b, c, d, e, f, g, h] =>
    let ch := (e &&& f) ^^^ ((4294967295 ^^^ e) &&& g)
    let t1 := add32 h (add32 (bigSigma1 e) (add32 ch (add32 k w)))
    let maj := (a &&& b) ^^^ (a &&& c) ^^^ (b &&& c)
    let t2 := add32 (bigSigma0 a) maj
    [add32 t1 t2, a, b, c, add32 d t1, e, f, g]
  | other => other

def compressBlock (h : List Nat) (block : List Nat) : List Nat :=
  let w := buildSched 48 (bytesToWords block)
  let st := (List.zip sha256K w).foldl (fun s kw => compressRound s kw.1 kw.2) h
  List.zipWith add32 h st

def processBlocksFuel : Nat → List Nat → List Nat → List Nat
  | 0, st, _ => st
  | n + 1, st, bs => processBlocksFuel n (compressBlock st (bs.take 64)) (bs.drop 64)

def bytesBE8 (n : Nat) : List Nat :=
  [(n >>> 56) &&& 255, (n >>> 48) &&& 255, (n >>> 40) &&& 255, (n >>> 32) &&& 255,
   (n >>> 24) &&& 255, (n >>> 16) &&& 255, (n >>> 8) &&& 255, n &&& 255]

def padMessage (msg : List Nat) : List Nat :=
  let L := msg.length
  let z := (120 - ((L + 1) % 64)) % 64
  msg ++ [128] ++ List.replicate z 0 ++ bytesBE8 (8 * L)

def sha256Words (msg : List Nat) : List Nat :=
  let p := padMessage msg
  processBlocksFuel (p.length / 64) sha256InitH p

def hexDigit (n : Nat) : Char :=
  if n < 10 then Char.ofNat (48 + n) else Char.ofNat (87 + n)

def wordToHex (w : Nat) : List Char :=
  [hexDigit ((w >>> 28) &&& 15), hexDigit ((w >>> 24) &&& 15), hexDigit ((w >>> 20) &&& 15),
   hexDigit ((w >>> 16) &&& 15), hexDigit ((w >>> 12) &&& 15), hexDigit ((w >>> 8) &&& 15),
   hexDigit ((w >>> 4) &&& 15), hexDigit (w &&& 15)]

/-- Hex digest of a byte message, as `hashlib`'s `hexdigest()` renders it. -/
def sha256Hex (msg : List Nat) : String :=
  String.mk ((sha256Words msg).foldr (fun w acc => wordToHex w ++ acc) [])

/-- UTF-8 encoding of one character (`str.encode()`), as byte values. -/
def charUtf8 (c : Char) : List Nat :=
  let n := c.toNat
  if n < 128 then [n]
  else if n < 2048 then [192 + n / 64, 128 + n % 64]
  else if n < 65536 then [224 + n / 4096, 128 + (n / 64) % 64, 128 + n % 64]
  else [240 + n / 262144, 128 + (n / 4096) % 64, 128 + (n / 64) % 64, 128 + n % 64]

/-- UTF-8 encoding of a string (`str.encode()`), as byte values. -/
def utf8Encode (s : String) : List Nat :=
  s.data.foldr (fun c acc => charUtf8 c ++ acc) []

/-! ## The field classifier and hash helper (source lines 15-72) -/

/-- `PII_COLUMN_ACTIONS` from the source, kept in its literal order; all
keys are distinct so the Python dict is faithfully a list of pairs. -/
def PII_COLUMN_ACTIONS : List (String × String) :=
  [("email", "hash"),
   ("contact_email", "hash"),
   ("first_name", "anon"),
   ("customer__first_name", "anon"),
   ("customer__last_name", "anon"),
   ("customer__email", "hash"),
   ("customer__phone", "null"),
   ("customer__default_address__first_name", "anon"),
   ("customer__default_address__last_name", "anon"),
   ("customer__default_address__address1", "null"),
   ("customer__default_address__city", "null"),
   ("customer__default_address__zip", "null"),
   ("customer__default_address__phone", "null"),
   ("last_name", "anon"),
   ("name", "anon"),
   ("phone", "null"),
   ("address1", "null"),
   ("address2", "null"),
   ("default_address__first_name", "null"),
   ("default_address__last_name", "null"),
   ("default_address__address1", "null"),
   ("default_address__city", "null"),
   ("default_address__province", "null"),
   ("default_address__country", "null"),
   ("default_address__zip", "null"),
   ("default_address__phone", "null"),
   ("default_address__name", "null"),
   ("default_address__country_code", "null"),
   ("default_address__country_name", "null"),
   ("default_address__default", "null"),
   ("shipping_address__address1", "null"),
   ("shipping_address__phone", "null"),
   ("shipping_address__zip", "null"),
   ("city", "null"),
   ("province", "null"),
   ("province_code", "null"),
   ("zip", "null"),
   ("postal_code", "null"),
   ("country", "null"),
   ("country_code", "null"),
   ("company", "null"),
   ("company_name", "null"),
   ("notes", "null"),
   ("tags", "null")]

def ANON_FIRST : String := "Anonymous"

def ANON_LAST : String := "Customer"

/-- `_hash_value(value, salt)` from the source: a falsy (`None` or
empty) value hashes as the empty string; a falsy salt contributes no
bytes; otherwise the digest is over salt bytes followed by value
bytes. -/
def _hash_value (value : Option String) (salt : Option String := none) : String :=
  let v := match value with
    | none => ""
    | some s => s
  let saltBytes := match salt with
    | none => ([] : List Nat)
    | some s => if s = "" then [] else utf8Encode s
  sha256Hex (saltBytes ++ utf8Encode v)

/-! ## Database model -/

/-- A stored row: column name to SQL value (`none` is NULL). -/
abbrev Row := List (String × Option String)

/-- One warehouse table: its column list (`PRAGMA table_info`) and rows. -/
structure Table where
  cols : List String
  rows : List Row
deriving DecidableEq

/-- One schema of the destination store: table name to table. -/
abbrev Database := List (String × Table)

/-- First-match association-list lookup; Python dict lookup and SQL name
resolution are both exact string matches. -/
def alookup {β : Type} (k : String) : List (String × β) → Option β
  | [] => none
  | (k', v) :: es => if k = k' then some v else alookup k es

/-- Python dict insertion: overwrite in place if the key is present,
else append. -/
def dictInsert {β : Type} (d : List (String × β)) (k : String) (v : β) :
    List (String × β) :=
  if (alookup k d).isSome then
    d.map (fun e => if e.1 = k then (e.1, v) else e)
  else d ++ [(k, v)]

/-- Evaluate a Python dict literal: keys are inserted left to right, a
repeated key keeps its first position but takes its last value. -/
def dictOfList {β : Type} (l : List (String × β)) : List (String × β) :=
  l.foldl (fun d p => dictInsert d p.1 p.2) []

/-- Replace the first table of a given name (the effect of an SQL
`UPDATE` on the table it names). -/
def updateFirstTable (n : String) (t : Table) : Database → Database
  | [] => []
  | e :: es => if e.1 = n then (n, t) :: es else e :: updateFirstTable n t es

/-! ## The redaction engine (`anonymize_customer`, source lines 74-153) -/

/-- The `tables_to_update` dict literal exactly as written in the
source, including the repeated `"orders"` key (lines 92-97). -/
def tablesToUpdateLiteral : List (String × String) :=
  [("customers", "id"),
   ("customers__addresses", "customer_id"),
   ("orders", "customer__id"),
   ("orders", "customer__default_address__customer_id")]

/-- What the `tables_to_update` literal evaluates to as a Python dict. -/
def tables_to_update : List (String × String) := dictOfList tablesToUpdateLiteral

/-- ASCII lowercasing of one character, as `str.lower()` acts on the
ASCII identifiers that occur as column names. -/
def lowerChar (c : Char) : Char :=
  if 'A' ≤ c ∧ c ≤ 'Z' then Char.ofNat (c.toNat + 32) else c

/-- `str.lower()` on a column name (executable, unlike the library's
`String.toLower`, so that concrete redactions evaluate). -/
def pyLower (s : String) : String :=
  String.mk (s.data.map lowerChar)

/-- `cols = {col[1].lower(): col[1] for col in cols_info}` (line 105):
map lowercased column name to the actual column name, later columns
overwriting earlier ones. -/
def buildColsDict (cols : List String) : List (String × String) :=
  cols.foldl (fun d c => dictInsert d (pyLower c) c) []

/-- One arm of the `if action == ... / elif ...` chain (lines 121-138):
given a matched PII key, its action and the prefetched hashed email,
either no SET clause (unknown action) or the value the column is set
to. -/
def mkClause (piiCol action hashedEmail : String) : Option (Option String) :=
  if action = "hash" then
    (if piiCol = "email" then some (some hashedEmail) else some none)
  else if action = "null" then some none
  else if action = "anon" then
    some (some (if piiCol = "first_name" then ANON_FIRST
                else if piiCol = "last_name" then ANON_LAST
                else "REDACTED"))
  else none

/-- The `set_clauses`/`values` built by the loop over an action table
(lines 118-138), generically in the action list for induction. -/
def assignsFrom (acts : List (String × String)) (dict : List (String × String))
    (hashedEmail : String) : List (String × Option String) :=
  acts.filterMap (fun p =>
    (alookup p.1 dict).bind (fun cn =>
      (mkClause p.1 p.2 hashedEmail).map (fun v => (cn, v))))

/-- The SET clauses the redaction pass produces for a table with the
given columns (the loop at lines 118-138 over `PII_COLUMN_ACTIONS`). -/
def computeAssignments (cols : List String) (hashedEmail : String) :
    List (String × Option String) :=
  assignsFrom PII_COLUMN_ACTIONS (buildColsDict cols) hashedEmail

/-- `WHERE {id_col} = ?`: the row's id column holds the customer id
(NULL never matches). -/
def rowMatches (idc cid : String) (r : Row) : Bool :=
  alookup idc r == some (some cid)

/-- Apply the SET clauses of one `UPDATE` to one row: every listed
column takes its new value, all others are untouched. -/
def applyAssigns (a : List (String × Option String)) (r : Row) : Row :=
  r.map (fun e =>
    match alookup e.1 a with
    | some nv => (e.1, nv)
    | none => e)

/-- The per-table body of `anonymize_customer` (lines 101-148) as a pure
table transform: build the lowercase column dict, prefetch and hash the
first matching row's email (lines 110-116), build the SET clauses, and
if there are any, update every row matching the id column.  `none`
means `continue` (no SET clauses, so no `UPDATE` statement is run). -/
def anonymizeTableOpt (cid : String) (salt : Option String) (idc : String)
    (T : Table) : Option Table :=
  let dict := buildColsDict T.cols
  let hashedEmail := match alookup "email" dict with
    | some ecol =>
      _hash_value (((T.rows.find? (fun r => rowMatches idc cid r)).bind
        (fun r => alookup ecol r)).join) salt
    | none => ""
  let assigns := computeAssignments T.cols hashedEmail
  if assigns.isEmpty then none
  else some ⟨T.cols, T.rows.map (fun r =>
    if rowMatches idc cid r then applyAssigns assigns r else r)⟩

/-- One iteration of the `for table, id_col in tables_to_update.items()`
loop, with a failure oracle for the `UPDATE` (the `try/except` at lines
147-151): a missing table or an empty SET clause list leaves the
database unchanged, and so does a raising `UPDATE`. -/
def processTableF (fail : String → Bool) (cid : String) (salt : Option String)
    (d : Database) (p : String × String) : Database :=
  match alookup p.1 d with
  | none => d
  | some T =>
    match anonymizeTableOpt cid salt p.2 T with
    | none => d
    | some T' => if fail p.1 then d else updateFirstTable p.1 T' d

/-! ## The redaction ledger (source lines 79-90) -/

/-- `CREATE TABLE IF NOT EXISTS {schema}.redacted_customers ...`. -/
def ensureLedger (db : Database) : Database :=
  match alookup "redacted_customers" db with
  | some _ => db
  | none => db ++ [("redacted_customers", ⟨["customer_id", "redacted_at"], []⟩)]

/-- Does the ledger table already hold an entry for this customer id
(the PRIMARY KEY that `INSERT OR IGNORE` respects)? -/
def ledgerHas (cid : String) (T : Table) : Bool :=
  T.rows.any (fun r => alookup "customer_id" r == some (some cid))

/-- `INSERT OR IGNORE INTO {schema}.redacted_customers (customer_id)
VALUES (?)`: append a ledger row unless the id is already present; the
`redacted_at` column takes its `CURRENT_TIMESTAMP` default. -/
def insertOrIgnoreLedger (cid now : String) (db : Database) : Database :=
  match alookup "redacted_customers" db with
  | none => db
  | some T =>
    if ledgerHas cid T then db
    else updateFirstTable "redacted_customers"
      ⟨T.cols, T.rows ++ [[("customer_id", some cid), ("redacted_at", some now)]]⟩ db

/-- The marking step of `anonymize_customer` (lines 79-90): create the
ledger table if needed, then insert-or-ignore the subject id. -/
def markCustomer (cid now : String) (db : Database) : Database :=
  insertOrIgnoreLedger cid now (ensureLedger db)

/-- The ledger table as it stands after `markCustomer` (a derived
description used to state lookup-level lemmas). -/
def markedLedger (cid now : String) (db : Database) : Table :=
  match alookup "redacted_customers" db with
  | none => ⟨["customer_id", "redacted_at"],
             [[("customer_id", some cid), ("redacted_at", some now)]]⟩
  | some T =>
    if ledgerHas cid T then T
    else ⟨T.cols, T.rows ++ [[("customer_id", some cid), ("redacted_at", some now)]]⟩

/-- The rows of the ledger table (empty when the table is absent). -/
def ledgerRows (db : Database) : List Row :=
  match alookup "redacted_customers" db with
  | none => []
  | some T => T.rows

/-- How many ledger rows carry this subject id. -/
def countLedger (cid : String) (db : Database) : Nat :=
  (ledgerRows db).countP (fun r => alookup "customer_id" r == some (some cid))

/-! ## `anonymize_customer` and the orchestration (source lines 74-237) -/

/-- `anonymize_customer` with the `UPDATE` failure oracle: mark the
subject in the ledger, then run the per-table redaction loop over the
evaluated `tables_to_update` dict. -/
def anonymizeF (fail : String → Bool) (cid : String) (salt : Option String)
    (now : String) (db : Database) : Database :=
  tables_to_update.foldl (processTableF fail cid salt) (markCustomer cid now db)

/-- `anonymize_customer(customer_id, db_path, schema, email_salt)`: the
run in which every `UPDATE` succeeds.  The connection arguments are
plumbing; `now` renders the ledger's `CURRENT_TIMESTAMP` default. -/
def anonymize_customer (cid : String) (salt : Option String) (now : String)
    (db : Database) : Database :=
  anonymizeF (fun _ => false) cid salt now db

/-- `handle_redaction_webhook(customer_id)` (lines 280-284): it calls
`anonymize_customer` with the default (absent) email salt. -/
def handle_redaction_webhook (cid : String) (now : String) (db : Database) : Database :=
  anonymize_customer cid none now db

/-- `reapply_redactions` (lines 155-181): if the ledger table is absent,
return; otherwise read every ledger customer id up front, then re-run
`anonymize_customer` (with no email salt) for each of them. -/
def reapply_redactions (now : String) (db : Database) : Database :=
  match alookup "redacted_customers" db with
  | none => db
  | some T =>
    ((T.rows.filterMap (fun r => (alookup "customer_id" r).join)).foldl
      (fun d c => anonymize_customer c none now d) db)

/-- `load_all_resources` (lines 183-200): run the dlt ingestion (an
external capability, passed as a function), then re-apply redactions. -/
def load_all_resources (ingest : Database → Database) (now : String)
    (db : Database) : Database :=
  reapply_redactions now (ingest db)

/-! ## The window planner (source lines 209-216) -/

/-- The `while current_start_date < max_end_date` loop that builds
`ranges`, with a fuel argument: each emitted window is
`[cursor, min(cursor + width, ceiling))` and the cursor advances to its
end.  `ceiling - floor` units of fuel are enough whenever `0 < width`,
since every step advances the cursor by at least one. -/
def planFuel : Nat → Nat → Nat → Nat → List (Nat × Nat)
  | 0, _, _, _ => []
  | fuel + 1, cur, ceiling, width =>
    if cur < ceiling then
      (cur, min (cur + width) ceiling) :: planFuel fuel (min (cur + width) ceiling) ceiling width
    else []

/-- The `ranges` list built by `incremental_load_with_backloading`
(lines 212-216), for a general floor, ceiling and width (the source
fixes the floor at 2024-01-01, the ceiling at `pendulum.now()` and the
width at one week). -/
def plan_ranges (floor ceiling width : Nat) : List (Nat × Nat) :=
  planFuel (ceiling - floor) floor ceiling width

/-- `incremental_load_with_backloading` (lines 202-237): plan the
weekly ranges, ingest each chunk in order, run the trailing
catch-up fetch from the ceiling, then re-apply redactions.  The dlt
pipeline runs are external capabilities passed as functions. -/
def incremental_load_with_backloading (ingest : Nat × Nat → Database → Database)
    (catchup : Database → Database) (minStart nowTs width : Nat)
    (now : String) (db : Database) : Database :=
  reapply_redactions now
    (catchup ((plan_ranges minStart nowTs width).foldl (fun d r => ingest r d) db))

/-! ## Projections used to state the idempotence results -/

/-- The column (if any) that the redaction pass treats as the email
column of a table: the actual name stored under the lowercase key
`"email"`. -/
def emailColOf (cols : List String) : Option String :=
  alookup "email" (buildColsDict cols)

/-- Null out the email column of a row (used to compare redaction
passes on every other field). -/
def projRow (ec : Option String) (r : Row) : Row :=
  r.map (fun e => if some e.1 = ec then (e.1, none) else e)

/-- Null out the email column of every row of a table. -/
def projTable (T : Table) : Table :=
  ⟨T.cols, T.rows.map (projRow (emailColOf T.cols))⟩

/-- The per-table effect of one loop iteration on the table it names:
skip (`continue` or a raising `UPDATE`) or the redacted table. -/
def stepTable (fail : String → Bool) (cid : String) (salt : Option String)
    (p : String × String) (T : Table) : Table :=
  match anonymizeTableOpt cid salt p.2 T with
  | none => T
  | some T' => if fail p.1 then T else T'

/-- The hashed-email value a table pass computes (lines 110-116),
written out for use in lemmas; `anonymizeTableOpt` is definitionally
this hash fed into the SET clauses. -/
def hashedEmailOf (cid : String) (salt : Option String) (idc : String) (T : Table) : String :=
  match alookup "email" (buildColsDict T.cols) with
  | some ecol =>
    _hash_value (((T.rows.find? (fun r => rowMatches idc cid r)).bind
      (fun r => alookup ecol r)).join) salt
  | none => ""

/-! ## Association-list lemmas -/

theorem alookup_nil {β : Type} (k : String) : alookup k ([] : List (String × β)) = none := rfl

theorem alookup_cons {β : Type} (k k' : String) (v : β) (es : List (String × β)) :
    alookup k ((k', v) :: es) = if k = k' then some v else alookup k es := rfl

theorem alookup_append {β : Type} (k : String) (l l' : List (String × β)) :
    alookup k (l ++ l') = ((alookup k l).rec (alookup k l') (fun v => some v)) := by
  induction l with
  | nil => rfl
  | cons e es ih =>
    obtain ⟨k', v⟩ := e
    by_cases h : k = k' <;> simp [alookup_cons, h, ih]

theorem alookup_eq_some_mem {β : Type} {k : String} {v : β} {l : List (String × β)}
    (h : alookup k l = some v) : (k, v) ∈ l := by
  induction l with
  | nil => simp [alookup] at h
  | cons e es ih =>
    obtain ⟨k', v'⟩ := e
    by_cases hk : k = k'
    · subst hk
      simp [alookup_cons] at h
      simp [h]
    · simp [alookup_cons, hk] at h
      exact List.mem_cons_of_mem _ (ih h)

theorem alookup_append_some {β : Type} {k : String} {v : β} {l : List (String × β)}
    (l' : List (String × β)) (h : alookup k l = some v) :
    alookup k (l ++ l') = some v := by
  induction l with
  | nil => simp [alookup] at h
  | cons e es ih =>
    obtain ⟨k1, v1⟩ := e
    by_cases hk : k = k1
    · simp_all [alookup_cons]
    · simp_all [alookup_cons]

theorem alookup_append_none {β : Type} {k : String} {l : List (String × β)}
    (l' : List (String × β)) (h : alookup k l = none) :
    alookup k (l ++ l') = alookup k l' := by
  induction l with
  | nil => simp
  | cons e es ih =>
    obtain ⟨k1, v1⟩ := e
    by_cases hk : k = k1
    · simp_all [alookup_cons]
    · simp_all [alookup_cons]

theorem alookup_map_replace {β : Type} (d : List (String × β)) (k' : String) (v : β)
    (k : String) :
    alookup k (d.map (fun e => if e.1 = k' then (e.1, v) else e)) =
      if k = k' then (alookup k' d).map (fun _ => v) else alookup k d := by
  induction d with
  | nil => by_cases h : k = k' <;> simp [alookup, h]
  | cons e es ih =>
    obtain ⟨k1, v1⟩ := e
    by_cases h1 : k1 = k' <;> by_cases h2 : k = k1
    · subst h2
      subst h1
      simp [alookup_cons]
    · have hk : ¬k = k' := fun h => h2 (h.trans h1.symm)
      simp [alookup_cons, h1, h2, hk, ih]
    · have hk : ¬k = k' := fun h => h1 (h2.symm.trans h)
      simp [alookup_cons, h1, h2, hk]
    · have hk1 : ¬k' = k1 := fun h => h1 h.symm
      simp [alookup_cons, h1, h2, hk1, ih]

theorem dictInsert_alookup {β : Type} (d : List (String × β)) (k' : String) (v : β)
    (k : String) :
    alookup k (dictInsert d k' v) = if k = k' then some v else alookup k d := by
  unfold dictInsert
  cases hw : alookup k' d with
  | some w =>
    simp only [hw, Option.isSome_some, if_true]
    rw [alookup_map_replace, hw]
    by_cases h : k = k' <;> simp [h]
  | none =>
    simp only [hw, Option.isSome_none, Bool.false_eq_true, if_false]
    by_cases h : k = k'
    · subst h
      rw [alookup_append_none _ hw]
      simp [alookup_cons]
    · cases hkd : alookup k d with
      | some w2 => rw [alookup_append_some _ hkd]; simp [h]
      | none =>
        rw [alookup_append_none _ hkd]
        simp [alookup_cons, alookup_nil, h]

theorem buildColsDict_inv (cols : List String) :
    ∀ k c, alookup k (buildColsDict cols) = some c → pyLower c = k := by
  have main : ∀ (cs : List String) (acc : List (String × String)),
      (∀ k c, alookup k acc = some c → pyLower c = k) →
      ∀ k c, alookup k (cs.foldl (fun d x => dictInsert d (pyLower x) x) acc) = some c →
        pyLower c = k := by
    intro cs
    induction cs with
    | nil => intro acc hacc k c h; exact hacc k c h
    | cons x xs ih =>
      intro acc hacc k c h
      refine ih (dictInsert acc (pyLower x) x) ?_ k c h
      intro k' c' h'
      rw [dictInsert_alookup] at h'
      by_cases hk : k' = pyLower x
      · rw [if_pos hk] at h'
        cases h'
        exact hk.symm
      · rw [if_neg hk] at h'
        exact hacc k' c' h'
  intro k c h
  exact main cols [] (fun k c h => by simp [alookup] at h) k c h

theorem updateFirstTable_alookup (n m : String) (t : Table) (d : Database) :
    alookup n (updateFirstTable m t d) =
      if n = m then (alookup m d).map (fun _ => t) else alookup n d := by
  induction d with
  | nil => by_cases h : n = m <;> simp [updateFirstTable, alookup, h]
  | cons e es ih =>
    obtain ⟨k1, T1⟩ := e
    by_cases h1 : k1 = m <;> by_cases h2 : n = k1
    · subst h2
      subst h1
      simp [updateFirstTable, alookup_cons]
    · subst h1
      simp [updateFirstTable, alookup_cons, h2]
    · subst h2
      have hk : ¬n = m := fun h => h1 h
      simp [updateFirstTable, h1, alookup_cons, hk]
    · have hm : ¬m = k1 := fun h => h1 h.symm
      simp [updateFirstTable, h1, alookup_cons, h2, hm, ih]

/-! ## Lookup characterizations of the marking and per-table steps -/

theorem markCustomer_alookup (cid now : String) (db : Database) (n : String) :
    alookup n (markCustomer cid now db) =
      if n = "redacted_customers" then some (markedLedger cid now db) else alookup n db := by
  unfold markCustomer markedLedger ensureLedger insertOrIgnoreLedger
  cases hl : alookup "redacted_customers" db with
  | some T =>
    simp only [hl]
    by_cases hp : ledgerHas cid T = true
    · simp only [hp, if_true]
      by_cases hn : n = "redacted_customers"
      · subst hn; simp [hl]
      · simp [hn]
    · simp only [Bool.not_eq_true] at hp
      simp only [hp, Bool.false_eq_true, if_false]
      rw [updateFirstTable_alookup]
      by_cases hn : n = "redacted_customers"
      · subst hn; simp [hl]
      · simp [hn]
  | none =>
    simp only [hl]
    have he : alookup "redacted_customers"
        (db ++ [("redacted_customers", (⟨["customer_id", "redacted_at"], []⟩ : Table))]) =
        some ⟨["customer_id", "redacted_at"], []⟩ := by
      rw [alookup_append_none _ hl]; simp [alookup_cons]
    simp only [he]
    have hh : ledgerHas cid (⟨["customer_id", "redacted_at"], []⟩ : Table) = false := by
      simp [ledgerHas]
    simp only [hh, Bool.false_eq_true, if_false]
    rw [updateFirstTable_alookup]
    by_cases hn : n = "redacted_customers"
    · subst hn; simp [he]
    · simp only [hn, if_false]
      cases hnd : alookup n db with
      | some w => rw [alookup_append_some _ hnd]
      | none => rw [alookup_append_none _ hnd]; simp [alookup_cons, alookup_nil, hn]

theorem processTableF_alookup (fail : String → Bool) (cid : String) (salt : Option String)
    (d : Database) (p : String × String) (n : String) :
    alookup n (processTableF fail cid salt d p) =
      if n = p.1 then (alookup p.1 d).map (stepTable fail cid salt p) else alookup n d := by
  unfold processTableF stepTable
  cases hT : alookup p.1 d with
  | none =>
    by_cases hn : n = p.1
    · subst hn; simp [hT]
    · simp [hn]
  | some T =>
    cases ha : anonymizeTableOpt cid salt p.2 T with
    | none =>
      by_cases hn : n = p.1
      · subst hn; simp [hT, ha]
      · simp [ha, hn]
    | some T' =>
      by_cases hf : fail p.1 = true
      · simp only [ha, hf, if_true]
        by_cases hn : n = p.1
        · subst hn; simp [hT, ha, hf]
        · simp [hn]
      · simp only [Bool.not_eq_true] at hf
        simp only [ha, hf, Bool.false_eq_true, if_false]
        rw [updateFirstTable_alookup]
        by_cases hn : n = p.1
        · subst hn; simp [hT, ha, hf]
        · simp [hn]

/-- What the duplicated-key `tables_to_update` literal evaluates to: the
second `"orders"` entry overwrites the first, so only three tables are
targeted and `orders` is matched on
`customer__default_address__customer_id` alone. -/
theorem tables_to_update_eval :
    tables_to_update =
      [("customers", "id"), ("customers__addresses", "customer_id"),
       ("orders", "customer__default_address__customer_id")] := by decide

theorem anonymizeF_alookup (fail : String → Bool) (cid : String) (salt : Option String)
    (now : String) (db : Database) (n : String) :
    alookup n (anonymizeF fail cid salt now db) =
      if n = "redacted_customers" then some (markedLedger cid now db)
      else
        match alookup n tables_to_update with
        | some idc => (alookup n db).map (stepTable fail cid salt (n, idc))
        | none => alookup n db := by
  unfold anonymizeF
  rw [tables_to_update_eval]
  simp only [List.foldl_cons, List.foldl_nil]
  by_cases h1 : n = "redacted_customers"
  · subst h1
    simp [processTableF_alookup, markCustomer_alookup]
  · by_cases h2 : n = "customers"
    · subst h2
      simp [processTableF_alookup, markCustomer_alookup, alookup_cons, alookup_nil]
    · by_cases h3 : n = "customers__addresses"
      · subst h3
        simp [processTableF_alookup, markCustomer_alookup, alookup_cons, alookup_nil]
      · by_cases h4 : n = "orders"
        · subst h4
          simp [processTableF_alookup, markCustomer_alookup, alookup_cons, alookup_nil]
        · simp [processTableF_alookup, markCustomer_alookup, alookup_cons, alookup_nil,
                h1, h2, h3, h4]

/-! ## Window planner lemmas -/

theorem planFuel_spec (width : Nat) (hw : 0 < width) (ceiling : Nat) :
    ∀ fuel cur, ceiling - cur ≤ fuel →
      (planFuel fuel cur ceiling width = [] ↔ ceiling ≤ cur) ∧
      (∀ t, (∃ w ∈ planFuel fuel cur ceiling width, w.1 ≤ t ∧ t < w.2) ↔
        cur ≤ t ∧ t < ceiling) ∧
      List.Chain' (fun a b => a.2 = b.1) (planFuel fuel cur ceiling width) ∧
      List.Pairwise (fun a b => a.2 ≤ b.1) (planFuel fuel cur ceiling width) ∧
      (∀ w ∈ planFuel fuel cur ceiling width,
        cur ≤ w.1 ∧ w.1 < w.2 ∧ w.2 ≤ ceiling ∧ w.2 - w.1 ≤ width) ∧
      (∀ w ∈ (planFuel fuel cur ceiling width).dropLast, w.2 - w.1 = width) ∧
      (cur < ceiling →
        (planFuel fuel cur ceiling width).head? = some (cur, min (cur + width) ceiling)) := by
  intro fuel
  induction fuel with
  | zero =>
    intro cur hf
    have hc : ceiling ≤ cur := by omega
    refine ⟨by simp [planFuel, hc], ?_, by simp [planFuel], by simp [planFuel],
      by simp [planFuel], by simp [planFuel], by omega⟩
    intro t
    simp only [planFuel]
    constructor
    · rintro ⟨w, hw', _⟩; simp at hw'
    · rintro ⟨h1, h2⟩; omega
  | succ fuel ih =>
    intro cur hf
    by_cases hc : cur < ceiling
    · have he1 : cur < min (cur + width) ceiling := by omega
      have he2 : min (cur + width) ceiling ≤ ceiling := by omega
      have hfuel : ceiling - min (cur + width) ceiling ≤ fuel := by omega
      obtain ⟨ih1, ih2, ih3, ih4, ih5, ih6, ih7⟩ := ih (min (cur + width) ceiling) hfuel
      have hplan : planFuel (fuel + 1) cur ceiling width =
          (cur, min (cur + width) ceiling) ::
            planFuel fuel (min (cur + width) ceiling) ceiling width := by
        simp [planFuel, hc]
      rw [hplan]
      refine ⟨by simp; omega, ?_, ?_, ?_, ?_, ?_, by intro h; rfl⟩
      · intro t
        constructor
        · rintro ⟨w, hw', ht1, ht2⟩
          rcases List.mem_cons.mp hw' with h | h
          · subst h; constructor <;> omega
          · have := (ih2 t).mp ⟨w, h, ht1, ht2⟩
            constructor <;> omega
        · rintro ⟨h1, h2⟩
          by_cases ht : t < min (cur + width) ceiling
          · exact ⟨(cur, min (cur + width) ceiling), List.mem_cons_self _ _, h1, ht⟩
          · obtain ⟨w, hwm, hw1, hw2⟩ := (ih2 t).mpr ⟨by omega, h2⟩
            exact ⟨w, List.mem_cons_of_mem _ hwm, hw1, hw2⟩
      · rw [List.chain'_cons']
        refine ⟨?_, ih3⟩
        intro b hb
        by_cases hcc : min (cur + width) ceiling < ceiling
        · rw [ih7 hcc] at hb
          simp at hb
          rw [← hb]
        · have : planFuel fuel (min (cur + width) ceiling) ceiling width = [] :=
            ih1.mpr (by omega)
          rw [this] at hb
          simp at hb
      · rw [List.pairwise_cons]
        refine ⟨?_, ih4⟩
        intro w hwm
        exact (ih5 w hwm).1
      · intro w hwm
        rcases List.mem_cons.mp hwm with h | h
        · subst h
          refine ⟨le_refl _, he1, he2, by omega⟩
        · obtain ⟨h1, h2, h3, h4⟩ := ih5 w h
          exact ⟨by omega, h2, h3, h4⟩
      · cases hrec : planFuel fuel (min (cur + width) ceiling) ceiling width with
        | nil => simp
        | cons y ys =>
          have hne : min (cur + width) ceiling < ceiling := by
            rcases Nat.lt_or_ge (min (cur + width) ceiling) ceiling with h | h
            · exact h
            · exfalso
              have h2 := ih1.mpr h
              rw [hrec] at h2
              exact List.cons_ne_nil _ _ h2
          have hval : min (cur + width) ceiling - cur = width := by omega
          intro w hwm
          have hunf : ((cur, min (cur + width) ceiling) :: y :: ys).dropLast
              = (cur, min (cur + width) ceiling) :: (y :: ys).dropLast := rfl
          rw [hunf] at hwm
          rcases List.mem_cons.mp hwm with h | h
          · subst h; simpa using hval
          · exact ih6 w (by rw [hrec]; exact h)
    · have hemp : planFuel (fuel + 1) cur ceiling width = [] := by
        simp [planFuel, hc]
      rw [hemp]
      refine ⟨by simp; omega, ?_, by simp, by simp, by simp, by simp, by omega⟩
      intro t
      constructor
      · rintro ⟨w, hw', _⟩; simp at hw'
      · rintro ⟨h1, h2⟩; omega

/-! ## Claim theorems -/

/-- Claim C3: for every floor, ceiling and positive width the
window-planning loop produces a finite ordered sequence of half-open
windows that are contiguous, non-overlapping, strictly increasing,
cover exactly the interval from floor (inclusive) to ceiling
(exclusive), each window has width at most the given width with only
the last allowed to be narrower, and the sequence is empty when the
floor is at or above the ceiling. -/
theorem claim_C3 (floor ceiling width : Nat) (hw : 0 < width) :
    (ceiling ≤ floor → plan_ranges floor ceiling width = []) ∧
    (∀ t, (∃ w ∈ plan_ranges floor ceiling width, w.1 ≤ t ∧ t < w.2) ↔
      floor ≤ t ∧ t < ceiling) ∧
    List.Chain' (fun a b => a.2 = b.1) (plan_ranges floor ceiling width) ∧
    List.Pairwise (fun a b => a.2 ≤ b.1) (plan_ranges floor ceiling width) ∧
    List.Pairwise (fun a b => a.1 < b.1) (plan_ranges floor ceiling width) ∧
    (∀ w ∈ plan_ranges floor ceiling width, w.1 < w.2 ∧ w.2 - w.1 ≤ width) ∧
    (∀ w ∈ (plan_ranges floor ceiling width).dropLast, w.2 - w.1 = width) := by
  obtain ⟨h1, h2, h3, h4, h5, h6, _⟩ :=
    planFuel_spec width hw ceiling (ceiling - floor) floor (le_refl _)
  refine ⟨fun hle => h1.mpr hle, h2, h3, h4, ?_, ?_, h6⟩
  · exact h4.imp_of_mem (fun ha hb hr => lt_of_lt_of_le (h5 _ ha).2.1 hr)
  · intro w hwm
    exact ⟨(h5 w hwm).2.1, (h5 w hwm).2.2.2⟩

/-- Witness for C3: the spec's scenario A, three seven-day windows
covering twenty-one days. -/
theorem claim_C3_witness :
    (0 < 7 ∧ plan_ranges 0 21 7 = [(0, 7), (7, 14), (14, 21)]) ∧
    ((21 ≤ 0 → plan_ranges 0 21 7 = []) ∧
     (∀ t, (∃ w ∈ plan_ranges 0 21 7, w.1 ≤ t ∧ t < w.2) ↔ 0 ≤ t ∧ t < 21) ∧
     List.Chain' (fun a b => a.2 = b.1) (plan_ranges 0 21 7) ∧
     List.Pairwise (fun a b => a.2 ≤ b.1) (plan_ranges 0 21 7) ∧
     List.Pairwise (fun a b => a.1 < b.1) (plan_ranges 0 21 7) ∧
     (∀ w ∈ plan_ranges 0 21 7, w.1 < w.2 ∧ w.2 - w.1 ≤ 7) ∧
     (∀ w ∈ (plan_ranges 0 21 7).dropLast, w.2 - w.1 = 7)) :=
  ⟨by decide, claim_C3 0 21 7 (by decide)⟩

/-- Claim C7: the hash helper is deterministic and equals the SHA-256
hex digest of the UTF-8 bytes of the (optional) salt followed by the
UTF-8 bytes of the value, a falsy value hashing as the empty string;
and for the spec's probabilistic salt-separation property, distinct
salts produce distinct digests on a concrete value. -/
theorem claim_C7 :
    (∀ v s, _hash_value v s = _hash_value v s) ∧
    (∀ v s, _hash_value v s =
      sha256Hex (utf8Encode (s.getD "") ++ utf8Encode (v.getD ""))) ∧
    _hash_value (some "a@b.com") (some "s1") ≠ _hash_value (some "a@b.com") (some "s2") := by
  refine ⟨fun v s => rfl, ?_, by decide⟩
  intro v s
  unfold _hash_value
  cases s with
  | none => cases v <;> rfl
  | some ss =>
    by_cases h : ss = ""
    · subst h
      cases v <;> rfl
    · simp only [h, if_false]
      cases v <;> rfl

/-- Counterexample to claim C5 as stated: `customer__first_name` is an
ANONYMIZE_NAME path, yet the redaction pass assigns it the generic
sentinel `"REDACTED"`, not the first-name sentinel. -/
theorem claim_C5_counterexample :
    alookup "customer__first_name" PII_COLUMN_ACTIONS = some "anon" ∧
    computeAssignments ["customer__first_name"] "" =
      [("customer__first_name", some "REDACTED")] ∧
    "REDACTED" ≠ ANON_FIRST := by decide

/-- Claim C5 amended: an ANONYMIZE_NAME field receives the first-name
sentinel exactly when its full path is the bare string `first_name`,
the last-name sentinel exactly when it is the bare `last_name`, and the
generic sentinel `"REDACTED"` otherwise, including for every qualified
name path such as `customer__first_name`. -/
theorem claim_C5 :
    ∀ p ∈ PII_COLUMN_ACTIONS, p.2 = "anon" →
      computeAssignments [p.1] "" =
        [(p.1, some (if p.1 = "first_name" then ANON_FIRST
                     else if p.1 = "last_name" then ANON_LAST else "REDACTED"))] := by
  decide

/-- Witness for C5: the bare `first_name` path receives the first-name
sentinel. -/
theorem claim_C5_witness :
    ("first_name", "anon") ∈ PII_COLUMN_ACTIONS ∧
    computeAssignments ["first_name"] "" = [("first_name", some ANON_FIRST)] :=
  ⟨by decide, claim_C5 ("first_name", "anon") (by decide) (by decide)⟩

/-- Counterexample to claim C2 as stated: `contact_email` is mapped to
the HASH action and present as a column, yet the redaction pass sets it
to NULL (the fallback branch), not to any SHA-256 digest. -/
theorem claim_C2_counterexample :
    alookup "contact_email" PII_COLUMN_ACTIONS = some "hash" ∧
    anonymizeTableOpt "42" none "id"
        ⟨["id", "contact_email"], [[("id", some "42"), ("contact_email", some "a@b.com")]]⟩ =
      some ⟨["id", "contact_email"], [[("id", some "42"), ("contact_email", none)]]⟩ := by
  decide

/-- Claim C2 amended: of the HASH-mapped field paths, exactly the bare
path `email` is replaced by a hash value and every other HASH-mapped
path falls back to NULL; the value written to the `email` column is
`_hash_value` of the first matching row's current email under the given
salt, which by C7 is the SHA-256 hex digest of the salted value. -/
theorem claim_C2 :
    (∀ p ∈ PII_COLUMN_ACTIONS, p.2 = "hash" →
      ∀ hashed : String, computeAssignments [p.1] hashed =
        [(p.1, if p.1 = "email" then some hashed else none)]) ∧
    (∀ (e : Option String) (salt : Option String),
      anonymizeTableOpt "42" salt "id"
          ⟨["id", "email"], [[("id", some "42"), ("email", e)]]⟩ =
        some ⟨["id", "email"], [[("id", some "42"), ("email", some (_hash_value e salt))]]⟩) := by
  constructor
  · intro p hp ha hashed
    fin_cases hp <;> simp_all <;> rfl
  · intro e salt
    rfl

/-- Witness for C2: the `email` path itself is hashed, and a concrete
record's email is replaced by the digest of its salted value. -/
theorem claim_C2_witness :
    ("email", "hash") ∈ PII_COLUMN_ACTIONS ∧
    computeAssignments ["email"] "h0" = [("email", some "h0")] ∧
    anonymizeTableOpt "42" (some "s") "id"
        ⟨["id", "email"], [[("id", some "42"), ("email", some "a@b.com")]]⟩ =
      some ⟨["id", "email"],
        [[("id", some "42"), ("email", some (_hash_value (some "a@b.com") (some "s")))]]⟩ :=
  ⟨by decide, claim_C2.1 ("email", "hash") (by decide) (by decide) "h0",
    claim_C2.2 (some "a@b.com") (some "s")⟩

/-! ## Column-matching lemmas (for the case-sensitivity claim) -/

theorem foldl_dictInsert_eq (cols : List String) :
    ∀ acc : List (String × String),
      (∀ x ∈ cols, alookup (pyLower x) acc = none) →
      (cols.map pyLower).Nodup →
      cols.foldl (fun d c => dictInsert d (pyLower c) c) acc =
        acc ++ cols.map (fun c => (pyLower c, c)) := by
  induction cols with
  | nil => intro acc _ _; simp
  | cons x xs ih =>
    intro acc hnone hnd
    simp only [List.map_cons, List.nodup_cons] at hnd
    have hx : alookup (pyLower x) acc = none := hnone x (List.mem_cons_self _ _)
    have hstep : dictInsert acc (pyLower x) x = acc ++ [(pyLower x, x)] := by
      unfold dictInsert
      simp [hx]
    simp only [List.foldl_cons, hstep]
    rw [ih (acc ++ [(pyLower x, x)]) ?_ hnd.2]
    · simp
    · intro y hy
      rw [alookup_append_none _ (hnone y (List.mem_cons_of_mem _ hy))]
      have hne : ¬pyLower y = pyLower x := by
        intro he
        exact hnd.1 (he ▸ List.mem_map_of_mem pyLower hy)
      simp [alookup_cons, alookup_nil, hne]

theorem buildColsDict_eq_of_nodup (cols : List String)
    (hnd : (cols.map pyLower).Nodup) :
    buildColsDict cols = cols.map (fun c => (pyLower c, c)) := by
  unfold buildColsDict
  rw [foldl_dictInsert_eq cols [] (fun x _ => rfl) hnd]
  simp

theorem alookup_lower_map (cols : List String) (hnd : (cols.map pyLower).Nodup)
    (k c : String) :
    alookup k (cols.map (fun c => (pyLower c, c))) = some c ↔
      c ∈ cols ∧ pyLower c = k := by
  induction cols with
  | nil => simp [alookup]
  | cons x xs ih =>
    simp only [List.map_cons, List.nodup_cons] at hnd
    simp only [List.map_cons, alookup_cons]
    by_cases hk : k = pyLower x
    · subst hk
      simp only [if_true]
      constructor
      · rintro h
        cases h
        exact ⟨List.mem_cons_self _ _, rfl⟩
      · rintro ⟨hc, hlow⟩
        rcases List.mem_cons.mp hc with h | h
        · subst h; rfl
        · exfalso
          exact hnd.1 (hlow ▸ List.mem_map_of_mem pyLower h)
    · simp only [hk, if_false]
      rw [ih hnd.2]
      constructor
      · rintro ⟨hc, hlow⟩
        exact ⟨List.mem_cons_of_mem _ hc, hlow⟩
      · rintro ⟨hc, hlow⟩
        rcases List.mem_cons.mp hc with h | h
        · subst h; exact absurd hlow (fun he => hk he.symm)
        · exact ⟨h, hlow⟩

theorem mem_keys_assignsFrom (l dict : List (String × String)) (h : String) (c : String) :
    c ∈ (assignsFrom l dict h).map Prod.fst ↔
      ∃ p ∈ l, alookup p.1 dict = some c ∧ (mkClause p.1 p.2 h).isSome := by
  unfold assignsFrom
  constructor
  · intro hm
    obtain ⟨y, hy, hfst⟩ := List.mem_map.mp hm
    obtain ⟨p, hp, hf⟩ := List.mem_filterMap.mp hy
    obtain ⟨cn, hcn, hmap⟩ := Option.bind_eq_some.mp hf
    obtain ⟨v, hv, hyv⟩ := Option.map_eq_some'.mp hmap
    refine ⟨p, hp, ?_, by simp [hv]⟩
    rw [hcn]
    congr 1
    rw [← hfst, ← hyv]
  · rintro ⟨p, hp, hl, hs⟩
    obtain ⟨v, hv⟩ := Option.isSome_iff_exists.mp hs
    refine List.mem_map.mpr ⟨(c, v), List.mem_filterMap.mpr ⟨p, hp, ?_⟩, rfl⟩
    rw [hl, hv]
    rfl

theorem mkClause_isSome_of_action (k a h : String)
    (ha : a = "hash" ∨ a = "null" ∨ a = "anon") : (mkClause k a h).isSome := by
  rcases ha with h1 | h1 | h1 <;> subst h1 <;> unfold mkClause
  · by_cases hk : k = "email" <;> simp [hk]
  · simp
  · simp

theorem pii_actions_cases :
    ∀ p ∈ PII_COLUMN_ACTIONS, p.2 = "hash" ∨ p.2 = "null" ∨ p.2 = "anon" := by decide

/-- Counterexample to claim C6 as stated: the column `Email` differs
only in letter case from the listed path `email` and is not itself a
key of the action table, yet the redaction pass does produce a SET
clause for it. -/
theorem claim_C6_counterexample :
    "Email" ∈ (computeAssignments ["id", "Email"] "h0").map Prod.fst ∧
    alookup "Email" PII_COLUMN_ACTIONS = none ∧
    "Email" ∉ PII_COLUMN_ACTIONS.map Prod.fst := by decide

/-- Claim C6 amended: field-path matching lowercases the table's column
names before the exact comparison, so (for tables without
case-colliding column names) a column is redacted exactly when its
lowercased name appears verbatim as a key of the action table; a column
differing only in letter case from a listed path IS redacted. -/
theorem claim_C6 (cols : List String) (hnd : (cols.map pyLower).Nodup)
    (hashed : String) (c : String) :
    c ∈ (computeAssignments cols hashed).map Prod.fst ↔
      c ∈ cols ∧ pyLower c ∈ PII_COLUMN_ACTIONS.map Prod.fst := by
  unfold computeAssignments
  rw [mem_keys_assignsFrom, buildColsDict_eq_of_nodup cols hnd]
  constructor
  · rintro ⟨p, hp, hl, _⟩
    obtain ⟨hc, hlow⟩ := (alookup_lower_map cols hnd p.1 c).mp hl
    exact ⟨hc, hlow ▸ List.mem_map.mpr ⟨p, hp, rfl⟩⟩
  · rintro ⟨hc, hk⟩
    obtain ⟨p, hp, hfst⟩ := List.mem_map.mp hk
    refine ⟨p, hp, ?_, mkClause_isSome_of_action _ _ _ (pii_actions_cases p hp)⟩
    rw [hfst]
    exact (alookup_lower_map cols hnd (pyLower c) c).mpr ⟨hc, rfl⟩

/-- Witness for C6: in a table with columns `id` and `Email`, the
column `Email` is redacted because its lowercase form is listed. -/
theorem claim_C6_witness :
    ((["id", "Email"].map pyLower).Nodup) ∧
    ("Email" ∈ (computeAssignments ["id", "Email"] "h0").map Prod.fst ↔
      "Email" ∈ ["id", "Email"] ∧ pyLower "Email" ∈ PII_COLUMN_ACTIONS.map Prod.fst) :=
  ⟨by decide, claim_C6 ["id", "Email"] (by decide) "h0" "Email"⟩

/-! ## Ledger lemmas -/

theorem ledgerRows_markCustomer (cid now : String) (db : Database) :
    ledgerRows (markCustomer cid now db) = (markedLedger cid now db).rows := by
  unfold ledgerRows
  rw [markCustomer_alookup]
  simp

theorem markedLedger_has (cid now : String) (db : Database) :
    ledgerHas cid (markedLedger cid now db) = true := by
  unfold markedLedger
  cases hl : alookup "redacted_customers" db with
  | none => simp [ledgerHas, alookup_cons]
  | some T =>
    by_cases hp : ledgerHas cid T = true
    · simp [hp]
    · simp only [Bool.not_eq_true] at hp
      simp only [hp, Bool.false_eq_true, if_false]
      unfold ledgerHas
      simp [List.any_append, alookup_cons]

theorem ledgerRows_anonymizeF (fail : String → Bool) (cid : String) (salt : Option String)
    (now : String) (db : Database) :
    ledgerRows (anonymizeF fail cid salt now db) = (markedLedger cid now db).rows := by
  unfold ledgerRows
  rw [anonymizeF_alookup]
  simp

theorem ledgerRows_anonymize_customer (cid : String) (salt : Option String)
    (now : String) (db : Database) :
    ledgerRows (anonymize_customer cid salt now db) = (markedLedger cid now db).rows := by
  unfold anonymize_customer
  exact ledgerRows_anonymizeF _ _ _ _ _

theorem markCustomer_idem (cid now now' : String) (db : Database) :
    markCustomer cid now' (markCustomer cid now db) = markCustomer cid now db := by
  have h1 : alookup "redacted_customers" (markCustomer cid now db) =
      some (markedLedger cid now db) := by
    rw [markCustomer_alookup]; simp
  set d := markCustomer cid now db with hd
  unfold markCustomer ensureLedger insertOrIgnoreLedger
  simp [h1, markedLedger_has]

theorem countLedger_markCustomer (cid now : String) (db : Database)
    (h : countLedger cid db ≤ 1) : countLedger cid (markCustomer cid now db) = 1 := by
  unfold countLedger
  rw [ledgerRows_markCustomer]
  unfold markedLedger
  cases hl : alookup "redacted_customers" db with
  | none => simp [alookup_cons]
  | some T =>
    have hdb : countLedger cid db =
        T.rows.countP (fun r => alookup "customer_id" r == some (some cid)) := by
      unfold countLedger ledgerRows
      rw [hl]
    by_cases hp : ledgerHas cid T = true
    · simp only [hp, if_true]
      unfold ledgerHas at hp
      obtain ⟨r, hr, hpr⟩ := List.any_eq_true.mp hp
      have hpos : 0 < T.rows.countP (fun r => alookup "customer_id" r == some (some cid)) :=
        List.countP_pos_iff.mpr ⟨r, hr, hpr⟩
      rw [hdb] at h
      omega
    · simp only [Bool.not_eq_true] at hp
      simp only [hp, Bool.false_eq_true, if_false]
      rw [List.countP_append]
      have hz : T.rows.countP (fun r => alookup "customer_id" r == some (some cid)) = 0 := by
        rw [List.countP_eq_zero]
        intro r hr
        unfold ledgerHas at hp
        have := List.any_eq_false.mp hp r hr
        simpa using this
      rw [hz]
      simp [alookup_cons]

/-- Claim C4: marking a subject for erasure is idempotent and always
succeeds: marking is a total transformation; marking an already-marked
subject changes nothing (even with a different timestamp); starting
from a well-formed ledger (at most one row per subject, which the
PRIMARY KEY guarantees) the subject has exactly one ledger row after a
mark; existing ledger rows are never updated or deleted; and the rest
of `anonymize_customer` leaves the ledger exactly as the marking step
wrote it, so calling `anonymize_customer` twice also leaves exactly one
ledger entry for the subject. -/
theorem claim_C4 (db : Database) (cid now now' : String) (salt : Option String)
    (h : countLedger cid db ≤ 1) :
    markCustomer cid now' (markCustomer cid now db) = markCustomer cid now db ∧
    countLedger cid (markCustomer cid now db) = 1 ∧
    (∀ r ∈ ledgerRows db, r ∈ ledgerRows (markCustomer cid now db)) ∧
    ledgerRows (anonymize_customer cid salt now db) = ledgerRows (markCustomer cid now db) ∧
    countLedger cid (anonymize_customer cid salt now'
      (anonymize_customer cid salt now db)) = 1 := by
  have hled : ∀ s t, ledgerRows (anonymize_customer cid s t db) =
      ledgerRows (markCustomer cid t db) := by
    intro s t
    rw [ledgerRows_anonymize_customer, ledgerRows_markCustomer]
  refine ⟨markCustomer_idem cid now now' db, countLedger_markCustomer cid now db h, ?_,
    hled salt now, ?_⟩
  · intro r hr
    rw [ledgerRows_markCustomer]
    unfold markedLedger
    unfold ledgerRows at hr
    cases hl : alookup "redacted_customers" db with
    | none => rw [hl] at hr; simp at hr
    | some T =>
      rw [hl] at hr
      by_cases hp : ledgerHas cid T = true
      · simp only [hp, if_true]
        exact hr
      · simp only [Bool.not_eq_true] at hp
        simp only [hp, Bool.false_eq_true, if_false]
        exact List.mem_append_left _ hr
  · have h2 : countLedger cid (anonymize_customer cid salt now db) =
        countLedger cid (markCustomer cid now db) := by
      unfold countLedger
      rw [hled salt now]
    have h3 : countLedger cid (anonymize_customer cid salt now db) ≤ 1 := by
      rw [h2, countLedger_markCustomer cid now db h]
    have h4 : countLedger cid (anonymize_customer cid salt now'
        (anonymize_customer cid salt now db)) =
        countLedger cid (markCustomer cid now' (anonymize_customer cid salt now db)) := by
      unfold countLedger
      rw [ledgerRows_anonymize_customer, ledgerRows_markCustomer]
    rw [h4]
    exact countLedger_markCustomer cid now' _ h3

/-- Witness for C4: marking subject 42 twice in an initially empty
store (the spec's scenario C via the webhook path) leaves exactly one
ledger entry. -/
theorem claim_C4_witness :
    countLedger "42" [] ≤ 1 ∧
    (markCustomer "42" "t1" (markCustomer "42" "t0" []) = markCustomer "42" "t0" [] ∧
     countLedger "42" (markCustomer "42" "t0" []) = 1 ∧
     (∀ r ∈ ledgerRows [], r ∈ ledgerRows (markCustomer "42" "t0" [])) ∧
     ledgerRows (anonymize_customer "42" none "t0" []) =
       ledgerRows (markCustomer "42" "t0" []) ∧
     countLedger "42" (anonymize_customer "42" none "t1"
       (anonymize_customer "42" none "t0" [])) = 1) :=
  ⟨by decide, claim_C4 [] "42" "t0" "t1" none (by decide)⟩

/-! ## Reapplication and per-table shape lemmas -/

theorem anonymizeTableOpt_some_shape (cid : String) (salt : Option String)
    (idc : String) (T T' : Table) (h : anonymizeTableOpt cid salt idc T = some T') :
    T'.cols = T.cols ∧ ∃ a, T'.rows =
      T.rows.map (fun r => if rowMatches idc cid r then applyAssigns a r else r) := by
  simp only [anonymizeTableOpt] at h
  split at h
  · exact absurd h (by simp)
  · cases h
    exact ⟨rfl, _, rfl⟩

theorem stepTable_cols (fail : String → Bool) (cid : String) (salt : Option String)
    (p : String × String) (T : Table) : (stepTable fail cid salt p T).cols = T.cols := by
  unfold stepTable
  cases haopt : anonymizeTableOpt cid salt p.2 T with
  | none => rfl
  | some T2 =>
    obtain ⟨hcols, _⟩ := anonymizeTableOpt_some_shape cid salt p.2 T T2 haopt
    by_cases hf : fail p.1 = true <;> simp [hf, hcols]

theorem stepTable_preserves_row (fail : String → Bool) (cid : String)
    (salt : Option String) (p : String × String) (T : Table) (j : Nat) (r : Row)
    (hj : T.rows[j]? = some r) (hne : rowMatches p.2 cid r = false) :
    (stepTable fail cid salt p T).rows[j]? = some r := by
  unfold stepTable
  cases haopt : anonymizeTableOpt cid salt p.2 T with
  | none => exact hj
  | some T2 =>
    obtain ⟨_, a, hrows⟩ := anonymizeTableOpt_some_shape cid salt p.2 T T2 haopt
    by_cases hf : fail p.1 = true
    · simp [hf, hj]
    · simp only [Bool.not_eq_true] at hf
      simp only [hf, Bool.false_eq_true, if_false]
      rw [hrows, List.getElem?_map, hj]
      simp [hne]

theorem foldl_anonymize_ledger (now : String) (T : Table) :
    ∀ (l : List String) (d : Database),
      alookup "redacted_customers" d = some T →
      (∀ c ∈ l, ledgerHas c T = true) →
      alookup "redacted_customers"
        (l.foldl (fun d c => anonymize_customer c none now d) d) = some T := by
  intro l
  induction l with
  | nil => intro d hd _; exact hd
  | cons c cs ih =>
    intro d hd hall
    simp only [List.foldl_cons]
    apply ih
    · unfold anonymize_customer
      rw [anonymizeF_alookup]
      simp only [if_pos rfl]
      unfold markedLedger
      rw [hd]
      simp [hall c (List.mem_cons_self _ _)]
    · intro c' h'
      exact hall c' (List.mem_cons_of_mem _ h')

theorem ledger_ids_marked (T : Table) :
    ∀ c ∈ T.rows.filterMap (fun r => (alookup "customer_id" r).join),
      ledgerHas c T = true := by
  intro c hc
  obtain ⟨r, hr, hf⟩ := List.mem_filterMap.mp hc
  have hsome : alookup "customer_id" r = some (some c) := by
    cases ho : alookup "customer_id" r with
    | none => rw [ho] at hf; simp [Option.join] at hf
    | some o =>
      rw [ho] at hf
      cases o with
      | none => simp [Option.join] at hf
      | some s => simp [Option.join] at hf; rw [hf]
  exact List.any_eq_true.mpr ⟨r, hr, by simp [hsome]⟩

/-- Claim C8: both ingestion orchestrators end a run with the
re-application pass; the pass is a no-op returning normally when the
ledger table is absent, and otherwise it reads the ledger's subject ids
up front and folds the full redaction transform (with no email salt)
over every one of them; the ledger itself survives the pass unchanged. -/
theorem claim_C8 :
    (∀ now db, alookup "redacted_customers" db = none → reapply_redactions now db = db) ∧
    (∀ now db T, alookup "redacted_customers" db = some T →
      reapply_redactions now db =
        (T.rows.filterMap (fun r => (alookup "customer_id" r).join)).foldl
          (fun d c => anonymize_customer c none now d) db) ∧
    (∀ ingest now db, load_all_resources ingest now db = reapply_redactions now (ingest db)) ∧
    (∀ ingest catchup minStart nowTs width now db,
      incremental_load_with_backloading ingest catchup minStart nowTs width now db =
        reapply_redactions now
          (catchup ((plan_ranges minStart nowTs width).foldl (fun d r => ingest r d) db))) ∧
    (∀ now db T, alookup "redacted_customers" db = some T →
      alookup "redacted_customers" (reapply_redactions now db) = some T) := by
  refine ⟨?_, ?_, fun ingest now db => rfl, fun i c m n w now db => rfl, ?_⟩
  · intro now db h
    unfold reapply_redactions
    rw [h]
  · intro now db T h
    unfold reapply_redactions
    rw [h]
  · intro now db T h
    unfold reapply_redactions
    rw [h]
    exact foldl_anonymize_ledger now T _ db h (ledger_ids_marked T)

/-- Witness for C8: on an empty store the ledger table is absent and
the re-application pass returns the store unchanged. -/
theorem claim_C8_witness :
    alookup "redacted_customers" ([] : Database) = none ∧
    reapply_redactions "t0" [] = [] :=
  ⟨by decide, claim_C8.1 "t0" [] (by decide)⟩

/-- Claim C9: the `tables_to_update` literal's repeated `"orders"` key
makes the dict hold exactly three entries, with `orders` matched only
on `customer__default_address__customer_id`; consequently an orders row
whose `customer__default_address__customer_id` does not equal the
subject id is never changed by `anonymize_customer`, even if its
`customer__id` column does equal the subject id. -/
theorem claim_C9 :
    tables_to_update =
      [("customers", "id"), ("customers__addresses", "customer_id"),
       ("orders", "customer__default_address__customer_id")] ∧
    (∀ (db : Database) (cid : String) (salt : Option String) (now : String)
        (T : Table) (j : Nat) (r : Row),
      alookup "orders" db = some T →
      T.rows[j]? = some r →
      ¬alookup "customer__default_address__customer_id" r = some (some cid) →
      ∃ T', alookup "orders" (anonymize_customer cid salt now db) = some T' ∧
        T'.cols = T.cols ∧ T'.rows[j]? = some r) := by
  refine ⟨tables_to_update_eval, ?_⟩
  intro db cid salt now T j r hT hj hne
  unfold anonymize_customer
  rw [anonymizeF_alookup]
  rw [tables_to_update_eval]
  simp only [alookup_cons, alookup_nil]
  norm_num
  rw [hT]
  have hb : rowMatches "customer__default_address__customer_id" cid r = false := by
    unfold rowMatches
    simpa using hne
  exact ⟨stepTable (fun _ => false) cid salt
      ("orders", "customer__default_address__customer_id") T, rfl,
    stepTable_cols _ _ _ _ _,
    stepTable_preserves_row _ _ _ _ _ _ _ hj hb⟩

/-- Witness for C9: an orders row linked to subject 42 only through
`customer__id` is untouched by `anonymize_customer 42`. -/
theorem claim_C9_witness :
    alookup "orders" ([("orders",
        (⟨["customer__id", "email"],
          [[("customer__id", some "42"), ("email", some "a@b.com")]]⟩ : Table))] : Database) =
      some ⟨["customer__id", "email"],
        [[("customer__id", some "42"), ("email", some "a@b.com")]]⟩ ∧
    ¬alookup "customer__default_address__customer_id"
        [("customer__id", some "42"), ("email", some "a@b.com")] = some (some "42") ∧
    (∃ T', alookup "orders" (anonymize_customer "42" none "t0"
        [("orders", ⟨["customer__id", "email"],
          [[("customer__id", some "42"), ("email", some "a@b.com")]]⟩)]) = some T' ∧
      T'.cols = ["customer__id", "email"] ∧
      T'.rows[0]? = some [("customer__id", some "42"), ("email", some "a@b.com")]) :=
  ⟨by decide, by decide,
    claim_C9.2
      [("orders", ⟨["customer__id", "email"],
        [[("customer__id", some "42"), ("email", some "a@b.com")]]⟩)]
      "42" none "t0"
      ⟨["customer__id", "email"], [[("customer__id", some "42"), ("email", some "a@b.com")]]⟩
      0 [("customer__id", some "42"), ("email", some "a@b.com")]
      (by decide) (by decide) (by decide)⟩

/-- Claim C10: a failed per-table UPDATE is caught and swallowed: with
any set of failing tables the run is still a total function; a table
whose UPDATE does not fail ends exactly as in the failure-free run
(failures elsewhere do not stop the iteration); when every UPDATE
fails, every data table is left untouched; and the ledger insert is
performed regardless. -/
theorem claim_C10 (fail : String → Bool) (db : Database) (cid : String)
    (salt : Option String) (now : String) (n : String) :
    (fail n = false →
      alookup n (anonymizeF fail cid salt now db) =
        alookup n (anonymize_customer cid salt now db)) ∧
    (n ≠ "redacted_customers" →
      alookup n (anonymizeF (fun _ => true) cid salt now db) = alookup n db) ∧
    alookup "redacted_customers" (anonymizeF fail cid salt now db) =
      some (markedLedger cid now db) := by
  refine ⟨?_, ?_, ?_⟩
  · intro hf
    unfold anonymize_customer
    rw [anonymizeF_alookup, anonymizeF_alookup]
    by_cases hn : n = "redacted_customers"
    · simp [hn]
    · simp only [hn, if_false]
      cases hm : alookup n tables_to_update with
      | none => rfl
      | some idc =>
        have hfun : stepTable fail cid salt (n, idc) =
            stepTable (fun _ => false) cid salt (n, idc) := by
          funext T
          unfold stepTable
          cases anonymizeTableOpt cid salt (n, idc).2 T <;> simp [hf]
        simp only [hfun]
  · intro hn
    rw [anonymizeF_alookup]
    simp only [hn, if_false]
    cases hm : alookup n tables_to_update with
    | none => rfl
    | some idc =>
      cases hdb : alookup n db with
      | none => rfl
      | some T =>
        simp only [Option.map_some']
        unfold stepTable
        cases anonymizeTableOpt cid salt (n, idc).2 T <;> simp
  · rw [anonymizeF_alookup]
    simp

/-- Witness for C10: with the customers UPDATE failing, the orders
table still ends as in the failure-free run, and with every UPDATE
failing an existing customers table is untouched while the ledger
insert still happens. -/
theorem claim_C10_witness :
    ((fun t => decide (t = "customers")) "orders" = false ∧
      alookup "orders" (anonymizeF (fun t => decide (t = "customers")) "42" none "t0" []) =
        alookup "orders" (anonymize_customer "42" none "t0" [])) ∧
    ("customers" ≠ "redacted_customers" ∧
      alookup "customers" (anonymizeF (fun _ => true) "42" none "t0"
          [("customers", (⟨["id", "email"],
            [[("id", some "42"), ("email", some "a@b.com")]]⟩ : Table))]) =
        alookup "customers"
          ([("customers", (⟨["id", "email"],
            [[("id", some "42"), ("email", some "a@b.com")]]⟩ : Table))] : Database)) :=
  ⟨⟨by decide, (claim_C10 (fun t => decide (t = "customers")) [] "42" none "t0" "orders").1
      (by decide)⟩,
   ⟨by decide, (claim_C10 (fun _ => true)
      [("customers", ⟨["id", "email"], [[("id", some "42"), ("email", some "a@b.com")]]⟩)]
      "42" none "t0" "customers").2.1 (by decide)⟩⟩

/-! ## Second-application lemmas (for the idempotence claim) -/

theorem anonymizeTableOpt_eq (cid : String) (salt : Option String) (idc : String)
    (T : Table) :
    anonymizeTableOpt cid salt idc T =
      (if (computeAssignments T.cols (hashedEmailOf cid salt idc T)).isEmpty then none
       else some ⟨T.cols, T.rows.map (fun r => if rowMatches idc cid r
         then applyAssigns
           (computeAssignments T.cols (hashedEmailOf cid salt idc T)) r else r)⟩) := rfl

theorem mkClause_indep (k a h h' : String) (hk : k ≠ "email") :
    mkClause k a h = mkClause k a h' := by
  unfold mkClause
  split_ifs <;> simp_all

theorem alookup_isSome_of_mem {β : Type} {k : String} {v : β} {l : List (String × β)}
    (h : (k, v) ∈ l) : (alookup k l).isSome := by
  induction l with
  | nil => simp at h
  | cons e es ih =>
    obtain ⟨k1, v1⟩ := e
    by_cases hk : k = k1
    · simp [alookup_cons, hk]
    · rcases List.mem_cons.mp h with h1 | h1
      · cases h1; exact absurd rfl hk
      · simp only [alookup_cons, hk, if_false]
        exact ih h1

theorem assigns_mem_canon (l dict : List (String × String)) (h k : String)
    (v : Option String) (hl : alookup k (assignsFrom l dict h) = some v)
    (hinv : ∀ k' c, alookup k' dict = some c → pyLower c = k') :
    alookup (pyLower k) dict = some k := by
  have hm := alookup_eq_some_mem hl
  obtain ⟨p, _, hf⟩ := List.mem_filterMap.mp hm
  obtain ⟨cn, hcn, hmap⟩ := Option.bind_eq_some.mp hf
  obtain ⟨w, _, hvw⟩ := Option.map_eq_some'.mp hmap
  have hcnk : cn = k := congrArg Prod.fst hvw
  subst hcnk
  rw [hinv p.1 cn hcn]
  exact hcn

theorem assigns_alookup_none (l dict : List (String × String)) (h idc : String)
    (hinv : ∀ k' c, alookup k' dict = some c → pyLower c = k')
    (hsafe : ¬(alookup (pyLower idc) dict = some idc)) :
    alookup idc (assignsFrom l dict h) = none := by
  cases hv : alookup idc (assignsFrom l dict h) with
  | none => rfl
  | some v => exact absurd (assigns_mem_canon l dict h idc v hv hinv) hsafe

theorem alookup_applyAssigns_of_none (a : List (String × Option String)) (k : String)
    (hk : alookup k a = none) : ∀ r : Row, alookup k (applyAssigns a r) = alookup k r := by
  intro r
  induction r with
  | nil => rfl
  | cons e es ih =>
    obtain ⟨k1, v1⟩ := e
    by_cases hkk : k = k1
    · subst hkk
      simp only [applyAssigns, List.map_cons, hk]
      cases hl1 : alookup k a with
      | none => simp [alookup_cons]
      | some nv => rw [hl1] at hk; cases hk
    · simp only [applyAssigns, List.map_cons]
      cases hl1 : alookup k1 a with
      | none => simp only [alookup_cons, hkk, if_false]; exact ih
      | some nv => simp only [alookup_cons, hkk, if_false]; exact ih

theorem rowMatches_applyAssigns (a : List (String × Option String)) (idc cid : String)
    (hk : alookup idc a = none) (r : Row) :
    rowMatches idc cid (applyAssigns a r) = rowMatches idc cid r := by
  unfold rowMatches
  rw [alookup_applyAssigns_of_none a idc hk r]

theorem pii_email_hash :
    ∀ p ∈ PII_COLUMN_ACTIONS, p.1 = "email" → p.2 = "hash" := by decide

theorem assignsFrom_hashed_change (dict : List (String × String))
    (hinv : ∀ k c, alookup k dict = some c → pyLower c = k) (h h' : String) :
    ∀ l : List (String × String), (∀ p ∈ l, p.1 = "email" → p.2 = "hash") →
      assignsFrom l dict h' =
        (assignsFrom l dict h).map
          (fun e => if pyLower e.1 = "email" then (e.1, some h') else e) := by
  intro l
  induction l with
  | nil => intro _; rfl
  | cons p ps ih =>
    intro hl
    have htail := ih (fun q hq he => hl q (List.mem_cons_of_mem _ hq) he)
    simp only [assignsFrom, List.filterMap_cons] at htail ⊢
    cases hd : alookup p.1 dict with
    | none => simpa [hd] using htail
    | some cn =>
      have hcn : pyLower cn = p.1 := hinv p.1 cn hd
      by_cases hpe : p.1 = "email"
      · have hact : p.2 = "hash" := hl p (List.mem_cons_self _ _) hpe
        have hm1 : mkClause p.1 p.2 h = some (some h) := by
          rw [hpe, hact]; rfl
        have hm2 : mkClause p.1 p.2 h' = some (some h') := by
          rw [hpe, hact]; rfl
        simp only [hd, Option.some_bind, hm1, hm2, Option.map_some', List.map_cons]
        rw [hcn, hpe]
        simp only [if_true]
        exact congrArg _ htail
      · have hmk : mkClause p.1 p.2 h' = mkClause p.1 p.2 h :=
          (mkClause_indep p.1 p.2 h h' hpe).symm
        cases hmv : mkClause p.1 p.2 h with
        | none =>
          rw [hmv] at hmk
          simp only [hd, Option.some_bind, hmk, hmv, Option.map_none']
          exact htail
        | some v =>
          rw [hmv] at hmk
          simp only [hd, Option.some_bind, hmk, hmv, Option.map_some', List.map_cons]
          have hrepl : (if pyLower cn = "email" then (cn, some h') else (cn, v)) = (cn, v) := by
            rw [hcn]
            simp [hpe]
          rw [hrepl]
          exact congrArg _ htail

theorem alookup_map_email (a : List (String × Option String)) (h' : String) (k : String) :
    alookup k (a.map (fun e => if pyLower e.1 = "email" then (e.1, some h') else e)) =
      if pyLower k = "email" then (alookup k a).map (fun _ => some h') else alookup k a := by
  induction a with
  | nil => by_cases hpy : pyLower k = "email" <;> simp [alookup, hpy]
  | cons e es ih =>
    obtain ⟨c, v⟩ := e
    by_cases hkc : k = c
    · subst hkc
      by_cases hpy : pyLower k = "email" <;>
        simp [alookup_cons, hpy, ih]
    · by_cases hpc : pyLower c = "email" <;>
        by_cases hpy : pyLower k = "email" <;>
        simp [alookup_cons, hkc, hpc, hpy, ih]

theorem projRow_applyAssigns_twice (a1 a2 : List (String × Option String))
    (ec : Option String) (h2 : String)
    (ha2 : ∀ k, alookup k a2 =
      if pyLower k = "email" then (alookup k a1).map (fun _ => some h2) else alookup k a1)
    (hec : ∀ k v, alookup k a1 = some v → pyLower k = "email" → ec = some k) :
    ∀ r : Row, projRow ec (applyAssigns a2 (applyAssigns a1 r)) =
      projRow ec (applyAssigns a1 r) := by
  intro r
  induction r with
  | nil => rfl
  | cons e es ih =>
    obtain ⟨k, v⟩ := e
    simp only [applyAssigns, projRow, List.map_cons] at ih ⊢
    refine congrArg₂ _ ?_ ih
    cases hl1 : alookup k a1 with
    | none =>
      have hl2 : alookup k a2 = none := by
        rw [ha2 k, hl1]
        by_cases hpy : pyLower k = "email" <;> simp [hpy]
      simp only [hl1, hl2]
    | some nv =>
      simp only [hl1]
      by_cases hpy : pyLower k = "email"
      · have hl2 : alookup k a2 = some (some h2) := by
          rw [ha2 k, hl1]
          simp [hpy]
        have hek : ec = some k := hec k nv hl1 hpy
        simp only [hl2, hek]
        simp
      · have hl2 : alookup k a2 = some nv := by
          rw [ha2 k, hl1]
          simp [hpy]
        simp only [hl2]

theorem assigns_alookup_none_of_safe (dict : List (String × String)) (h idc : String)
    (hinv : ∀ k' c, alookup k' dict = some c → pyLower c = k')
    (hsafe : pyLower idc ∉ PII_COLUMN_ACTIONS.map Prod.fst) :
    alookup idc (assignsFrom PII_COLUMN_ACTIONS dict h) = none := by
  cases hv : alookup idc (assignsFrom PII_COLUMN_ACTIONS dict h) with
  | none => rfl
  | some v =>
    exfalso
    have hmem : idc ∈ (assignsFrom PII_COLUMN_ACTIONS dict h).map Prod.fst :=
      List.mem_map.mpr ⟨(idc, v), alookup_eq_some_mem hv, rfl⟩
    obtain ⟨p, hp, hd, _⟩ := (mem_keys_assignsFrom PII_COLUMN_ACTIONS dict h idc).mp hmem
    exact hsafe ((hinv p.1 idc hd) ▸ List.mem_map.mpr ⟨p, hp, rfl⟩)

theorem projTable_step_step (cid : String) (salt : Option String) (n idc : String)
    (hsafe : pyLower idc ∉ PII_COLUMN_ACTIONS.map Prod.fst) (T : Table) :
    projTable (stepTable (fun _ => false) cid salt (n, idc)
      (stepTable (fun _ => false) cid salt (n, idc) T)) =
      projTable (stepTable (fun _ => false) cid salt (n, idc) T) := by
  have hinv := buildColsDict_inv T.cols
  cases hopt : anonymizeTableOpt cid salt idc T with
  | none =>
    have hstep : stepTable (fun _ => false) cid salt (n, idc) T = T := by
      unfold stepTable
      rw [hopt]
    rw [hstep, hstep]
  | some T1 =>
    have hstep : stepTable (fun _ => false) cid salt (n, idc) T = T1 := by
      unfold stepTable
      rw [hopt]
      rfl
    rw [hstep]
    rw [anonymizeTableOpt_eq] at hopt
    by_cases hemp : (computeAssignments T.cols (hashedEmailOf cid salt idc T)).isEmpty
    · rw [if_pos hemp] at hopt
      cases hopt
    · rw [if_neg hemp] at hopt
      injection hopt with hT1
      subst hT1
      set h1 := hashedEmailOf cid salt idc T with hh1
      set h2 := hashedEmailOf cid salt idc
        (⟨T.cols, T.rows.map (fun r => if rowMatches idc cid r
          then applyAssigns (computeAssignments T.cols h1) r else r)⟩ : Table) with hh2
      have hmap : computeAssignments T.cols h2 =
          (computeAssignments T.cols h1).map
            (fun e => if pyLower e.1 = "email" then (e.1, some h2) else e) := by
        unfold computeAssignments
        exact assignsFrom_hashed_change (buildColsDict T.cols) hinv h1 h2
          PII_COLUMN_ACTIONS pii_email_hash
      have hemp2 : ¬(computeAssignments T.cols h2).isEmpty = true := by
        intro hc
        apply hemp
        rw [hmap] at hc
        rw [List.isEmpty_iff] at hc ⊢
        exact List.map_eq_nil_iff.mp hc
      have hstep2 : stepTable (fun _ => false) cid salt (n, idc)
          (⟨T.cols, T.rows.map (fun r => if rowMatches idc cid r
            then applyAssigns (computeAssignments T.cols h1) r else r)⟩ : Table) =
          ⟨T.cols, (T.rows.map (fun r => if rowMatches idc cid r
            then applyAssigns (computeAssignments T.cols h1) r else r)).map
              (fun r => if rowMatches idc cid r
                then applyAssigns (computeAssignments T.cols h2) r else r)⟩ := by
        unfold stepTable
        rw [anonymizeTableOpt_eq]
        rw [if_neg hemp2]
        rfl
      rw [hstep2]
      have hnone : alookup idc (computeAssignments T.cols h1) = none :=
        assigns_alookup_none_of_safe (buildColsDict T.cols) h1 idc hinv hsafe
      unfold projTable
      simp only [List.map_map]
      refine congrArg _ ?_
      apply List.map_congr_left
      intro r _
      simp only [Function.comp_apply]
      cases hmr : rowMatches idc cid r with
      | false =>
        simp only [hmr, Bool.false_eq_true, if_false, hmr]
      | true =>
        simp only [hmr, if_true]
        have hmr2 : rowMatches idc cid
            (applyAssigns (computeAssignments T.cols h1) r) = true := by
          rw [rowMatches_applyAssigns _ _ _ hnone r]
          exact hmr
        simp only [hmr2, if_true]
        apply projRow_applyAssigns_twice
        · intro k
          rw [hmap]
          exact alookup_map_email (computeAssignments T.cols h1) h2 k
        · intro k v hkv hpy
          unfold emailColOf
          rw [← hpy]
          exact assigns_mem_canon PII_COLUMN_ACTIONS (buildColsDict T.cols) h1 k v hkv hinv

theorem markedLedger_stable (cid now' : String) (d : Database) (L : Table)
    (hd : alookup "redacted_customers" d = some L) (hh : ledgerHas cid L = true) :
    markedLedger cid now' d = L := by
  unfold markedLedger
  rw [hd]
  simp [hh]

set_option maxRecDepth 4000 in
/-- Counterexample to claim C1 as stated: running `anonymize_customer`
a second time with the same (absent) salt changes the stored email
field, because the pass re-hashes the current (already hashed) value
rather than being a no-op. -/
theorem claim_C1_counterexample :
    ¬(anonymize_customer "42" none "t0" (anonymize_customer "42" none "t0"
        [("customers", ⟨["id", "email"], [[("id", some "42"), ("email", some "a@b.com")]]⟩)]) =
      anonymize_customer "42" none "t0"
        [("customers", ⟨["id", "email"], [[("id", some "42"), ("email", some "a@b.com")]]⟩)]) := by
  decide

/-- Claim C1 amended: applying the redaction transform twice with the
same salt equals applying it once on every stored field except the
email column: the ledger and every NULLIFY/ANONYMIZE_NAME field are
unchanged by the second application, while the email column (the one
whose lowercased name is `email`) is re-hashed each time.  Stated as:
after projecting away each table's email column, the lookup of any
table name in the twice-redacted store equals its lookup in the
once-redacted store. -/
theorem claim_C1 (db : Database) (cid : String) (salt : Option String)
    (now now' : String) (n : String) :
    (alookup n (anonymize_customer cid salt now'
        (anonymize_customer cid salt now db))).map projTable =
      (alookup n (anonymize_customer cid salt now db)).map projTable := by
  unfold anonymize_customer
  rw [anonymizeF_alookup (fun _ => false) cid salt now'
    (anonymizeF (fun _ => false) cid salt now db) n]
  by_cases hn : n = "redacted_customers"
  · subst hn
    simp only [if_pos rfl]
    have hst : markedLedger cid now' (anonymizeF (fun _ => false) cid salt now db) =
        markedLedger cid now db := by
      apply markedLedger_stable
      · rw [anonymizeF_alookup]
        simp
      · exact markedLedger_has cid now db
    rw [hst, anonymizeF_alookup (fun _ => false) cid salt now db "redacted_customers"]
    simp
  · simp only [hn, if_false]
    rw [anonymizeF_alookup (fun _ => false) cid salt now db n]
    simp only [hn, if_false]
    cases hm : alookup n tables_to_update with
    | none => rfl
    | some idc =>
      cases hdb : alookup n db with
      | none => rfl
      | some T =>
        simp only [Option.map_some']
        have hsafe : pyLower idc ∉ PII_COLUMN_ACTIONS.map Prod.fst := by
          rw [tables_to_update_eval] at hm
          simp only [alookup_cons, alookup_nil] at hm
          split_ifs at hm
          · injection hm with hv
            subst hv
            decide
          · injection hm with hv
            subst hv
            decide
          · injection hm with hv
            subst hv
            decide
        exact congrArg some (projTable_step_step cid salt n idc hsafe T)
